import Mathlib

/-!
Verification of the self-evolution pipeline of the `automate-system` repository
(`src/clawdbot/src/evolution/`): the gap-to-deployment engine
(`self-evolution-engine.ts`), the versioned skill repository
(`skill-repository.ts`), and the deterministic security gate of the validator
(`skill-validator.ts`).

Shallow embedding conventions:
* JavaScript `Date` values are modelled as natural-number timestamps; every
  operation that stamps `new Date()` receives the current instant explicitly.
* `crypto.randomUUID()` is modelled by a fresh-counter / caller-supplied
  identifier (its only relevant property is that the produced token is opaque).
* The text-completion service (LLM), the filesystem writes of the compiler and
  the dynamic `RegExp` compilation of configured blocked patterns are external
  collaborators; they enter the model as explicit environment functions that
  may fail (`Except String`), mirroring a thrown exception.
* JavaScript numbers appearing in version strings are modelled for the
  non-negative-integer / NaN fragment actually reachable from
  `major.minor.patch` version handling.
-/

namespace Clawdbot

/-! ## JS string helpers used by `skill-repository.ts` -/

/-- Digits of a natural number, most significant first
(the model of JavaScript number-to-string conversion for integers). -/
def natToDigits (n : Nat) : List Char :=
  if _h : n < 10 then [Nat.digitChar n]
  else natToDigits (n / 10) ++ [Nat.digitChar (n % 10)]
decreasing_by
  exact Nat.div_lt_self (by omega) (by omega)

/-- Value of a digit list, most significant first. -/
def digitsToNat (l : List Char) : Nat :=
  l.foldl (fun acc c => 10 * acc + (c.toNat - 48)) 0

/-- The result of JavaScript `Number(component)` / an array hole, as needed by
`incrementVersion`'s `parts[2] = (parts[2] || 0) + 1` followed by `join`. -/
inductive JsVal where
  | num (n : Nat)
  | nan
  | hole
deriving DecidableEq, Repr

/-- Model of `String.prototype.split('.')`. -/
def splitDot : List Char → List (List Char)
  | [] => [[]]
  | c :: r =>
    if c = '.' then [] :: splitDot r
    else
      match splitDot r with
      | h :: t => (c :: h) :: t
      | [] => [[c]]

/-- Model of JavaScript `Number` on a version component: the empty string is 0,
a digit string is its value, anything else is NaN (the fragment reachable from
version strings; fractional numbers are outside the modelled domain). -/
def jsNumber (l : List Char) : JsVal :=
  if l = [] then .num 0
  else if l.all Char.isDigit then .num (digitsToNat l)
  else .nan

/-- JavaScript truthiness fallback `x || 0` on a (possibly missing) part. -/
def jsOr0 : JsVal → Nat
  | .num n => n
  | .nan => 0
  | .hole => 0

/-- Stringification of one part by `Array.prototype.join` (holes join as
the empty string, `NaN` prints as `NaN`). -/
def jsRender : JsVal → List Char
  | .num n => natToDigits n
  | .nan => ['N', 'a', 'N']
  | .hole => []

/-- Join components with `'.'` (model of `parts.join('.')`). -/
def joinDots : List (List Char) → List Char
  | [] => []
  | [x] => x
  | x :: xs => x ++ '.' :: joinDots xs

/-- Model of the JavaScript array store `parts[2] = v` (extending the array
with holes when it is shorter than 3). -/
def setPart2 (parts : List JsVal) (v : JsVal) : List JsVal :=
  match parts with
  | p0 :: p1 :: _ :: rest => p0 :: p1 :: v :: rest
  | [p0, p1] => [p0, p1, v]
  | [p0] => [p0, .hole, v]
  | [] => [.hole, .hole, v]

/-! ## Data model (from `src/clawdbot/src/types/evolution.ts`) -/

inductive SkillCategory where
  | dataAnalysis | webScraping | apiIntegration | fileProcessing | automation
  | codeGeneration | communication | security | utility | domainSpecific
deriving DecidableEq, Repr

inductive Complexity where
  | low | medium | high
deriving DecidableEq, Repr

inductive GapStatus where
  | identified | generating | validating | resolved | failed
deriving DecidableEq, Repr

structure GapContext where
  userRequest : String
  attemptedActions : List String
  failureReason : String
deriving DecidableEq, Repr

structure RequiredCapability where
  description : String
  category : SkillCategory
  suggestedTools : Option (List String)
  complexity : Complexity
deriving DecidableEq, Repr

structure CapabilityGap where
  id : String
  timestamp : Nat
  context : GapContext
  requiredCapability : RequiredCapability
  status : GapStatus
deriving DecidableEq, Repr

structure TriggerDefs where
  patterns : List String
  intents : List String
  commands : List String
  examples : List String
deriving DecidableEq, Repr

structure LogicStep where
  id : String
  description : String
  action : String
  condition : Option String
  onSuccess : Option String
  onFailure : Option String
deriving DecidableEq, Repr

structure ErrorHandler where
  errorType : String
  action : String
  maxRetries : Option Nat
  fallbackStep : Option String
  message : Option String
deriving DecidableEq, Repr

structure TestCase where
  id : String
  name : String
  input : String
  expectedBehavior : String
  tags : List String
deriving DecidableEq, Repr

structure SkillLogic where
  steps : List LogicStep
  errorHandling : List ErrorHandler
deriving DecidableEq, Repr

structure SkillDeps where
  skills : List String
  tools : List String
  apis : List String
deriving DecidableEq, Repr

structure SkillTemplate where
  name : String
  version : String
  description : String
  author : String
  category : SkillCategory
  triggers : TriggerDefs
  permissions : List String
  logic : SkillLogic
  dependencies : SkillDeps
  testCases : List TestCase
deriving DecidableEq, Repr

structure TestResult where
  testCaseId : String
  passed : Bool
  actualOutput : Option String
  error : Option String
  executionTime : Nat
deriving DecidableEq, Repr

inductive Severity where
  | low | medium | high | critical
deriving DecidableEq, Repr

structure SecurityRisk where
  severity : Severity
  category : String
  description : String
  location : Option String
  mitigation : Option String
deriving DecidableEq, Repr

structure SecurityReviewResult where
  passed : Bool
  risks : List SecurityRisk
  recommendations : List String
deriving DecidableEq, Repr

inductive ValidationStatus where
  | pending | passed | failed
deriving DecidableEq, Repr

structure ValidationRecord where
  status : ValidationStatus
  syntaxValid : Bool
  typeCheckPassed : Bool
  testResults : List TestResult
  securityReview : SecurityReviewResult
deriving DecidableEq, Repr

inductive SkillStatus where
  | draft | validated | deployed | deprecated
deriving DecidableEq, Repr

structure SkillCode where
  typescript : String
  compiled : Option String
deriving DecidableEq, Repr

structure GenerationMeta where
  timestamp : Nat
  model : String
  prompt : String
  iterations : Nat
deriving DecidableEq, Repr

structure GeneratedSkill where
  id : String
  template : SkillTemplate
  code : SkillCode
  generation : GenerationMeta
  validation : ValidationRecord
  status : SkillStatus
deriving DecidableEq, Repr

structure SkillLimits where
  timeout : Nat
  memory : Nat
  fileAccess : List String
  networkAccess : List String
deriving DecidableEq, Repr

structure ManifestTriggers where
  patterns : List String
  intents : List String
  commands : List String
deriving DecidableEq, Repr

structure SkillManifest where
  name : String
  version : String
  description : String
  author : String
  triggers : ManifestTriggers
  permissions : List String
  limits : SkillLimits
deriving DecidableEq, Repr

structure SkillVersion where
  version : String
  timestamp : Nat
  changelog : String
  author : String
  hash : String
deriving DecidableEq, Repr

structure SkillPaths where
  markdown : String
  typescript : String
  compiled : Option String
deriving DecidableEq, Repr

structure SkillStats where
  createdAt : Nat
  updatedAt : Nat
  executionCount : Nat
  successRate : Rat
  averageExecutionTime : Rat
  lastUsed : Option Nat
deriving DecidableEq, Repr

inductive LoadState where
  | unloaded | loading | loaded | error
deriving DecidableEq, Repr

structure SkillRepositoryEntry where
  id : String
  manifest : SkillManifest
  template : SkillTemplate
  paths : SkillPaths
  versions : List SkillVersion
  currentVersion : String
  stats : SkillStats
  enabled : Bool
  loadState : LoadState
deriving DecidableEq, Repr

inductive EvolutionEventType where
  | gap_identified | generation_started | generation_completed
  | validation_started | validation_passed | validation_failed
  | skill_deployed | skill_repaired | skill_deprecated
  | engine_initialized
deriving DecidableEq, Repr

inductive EventResult where
  | success | failure
deriving DecidableEq, Repr

structure EventDetails where
  gap : Option CapabilityGap
  skill : Option GeneratedSkill
  action : String
  result : EventResult
  error : Option String
deriving DecidableEq, Repr

structure EvolutionEvent where
  id : Nat
  timestamp : Nat
  type : EvolutionEventType
  details : EventDetails
deriving DecidableEq, Repr

/-! ## Configuration (from `types/evolution.ts` / engine `getDefaultConfig`) -/

structure GenerationConfig where
  model : String
  maxIterations : Nat
  timeout : Nat
deriving DecidableEq, Repr

structure ValidationConfig where
  runTests : Bool
  typeCheck : Bool
  securityReview : Bool
  minTestCoverage : Rat
deriving DecidableEq, Repr

structure DeploymentConfig where
  autoApprove : Bool
  sandboxFirst : Bool
  notifyOnDeploy : Bool
deriving DecidableEq, Repr

structure RepositoryConfig where
  path : String
  maxSkills : Nat
  cleanupOldVersions : Bool
deriving DecidableEq, Repr

structure SecurityConfig where
  allowedPermissions : List String
  blockedPatterns : List String
  requireReview : Bool
deriving DecidableEq, Repr

structure EvolutionConfig where
  autoEvolve : Bool
  generation : GenerationConfig
  validation : ValidationConfig
  deployment : DeploymentConfig
  repository : RepositoryConfig
  security : SecurityConfig
deriving DecidableEq, Repr

/-! ## SHA-256 (model of Node `crypto.createHash('sha256')`, used by
`SkillRepository.hashCode`), over 32-bit words represented as `Nat` mod 2^32 -/

def w32 (n : Nat) : Nat := n % 4294967296

def rotr (n x : Nat) : Nat := w32 (x / 2 ^ n + x % 2 ^ n * 2 ^ (32 - n))

def shr (n x : Nat) : Nat := x / 2 ^ n

def bnot32 (x : Nat) : Nat := Nat.xor x 4294967295

def sigBig0 (x : Nat) : Nat := Nat.xor (rotr 2 x) (Nat.xor (rotr 13 x) (rotr 22 x))

def sigBig1 (x : Nat) : Nat := Nat.xor (rotr 6 x) (Nat.xor (rotr 11 x) (rotr 25 x))

def sigSmall0 (x : Nat) : Nat := Nat.xor (rotr 7 x) (Nat.xor (rotr 18 x) (shr 3 x))

def sigSmall1 (x : Nat) : Nat := Nat.xor (rotr 17 x) (Nat.xor (rotr 19 x) (shr 10 x))

def chFn (x y z : Nat) : Nat := Nat.xor (Nat.land x y) (Nat.land (bnot32 x) z)

def majFn (x y z : Nat) : Nat :=
  Nat.xor (Nat.land x y) (Nat.xor (Nat.land x z) (Nat.land y z))

/-- The 64 SHA-256 round constants (written in decimal: the low 32 bits of
the fractional parts of the cube roots of the first 64 primes). -/
def sha256K : List Nat :=
  [1116352408, 1899447441, 3049323471, 3921009573, 961987163,
   1508970993, 2453635748, 2870763221, 3624381080, 310598401,
   607225278, 1426881987, 1925078388, 2162078206, 2614888103,
   3248222580, 3835390401, 4022224774, 264347078, 604807628,
   770255983, 1249150122, 1555081692, 1996064986, 2554220882,
   2821834349, 2952996808, 3210313671, 3336571891, 3584528711,
   113926993, 338241895, 666307205, 773529912, 1294757372,
   1396182291, 1695183700, 1986661051, 2177026350, 2456956037,
   2730485921, 2820302411, 3259730800, 3345764771, 3516065817,
   3600352804, 4094571909, 275423344, 430227734, 506948616,
   659060556, 883997877, 958139571, 1322822218, 1537002063,
   1747873779, 1955562222, 2024104815, 2227730452, 2361852424,
   2428436474, 2756734187, 3204031479, 3329325298]

structure Hash8 where
  a : Nat
  b : Nat
  c : Nat
  d : Nat
  e : Nat
  f : Nat
  g : Nat
  h : Nat
deriving DecidableEq, Repr

/-- The SHA-256 initial state (low 32 bits of the fractional parts of the
square roots of the first 8 primes, in decimal). -/
def sha256H0 : Hash8 :=
  ⟨1779033703, 3144134277, 1013904242, 2773480762,
   1359893119, 2600822924, 528734635, 1541459225⟩

/-- Extend a 16-word block by `k` more schedule words. -/
def sha256Extend : Nat → List Nat → List Nat
  | 0, ws => ws
  | k + 1, ws =>
    let n := ws.length
    let w := w32 (sigSmall1 (ws.getD (n - 2) 0) + ws.getD (n - 7) 0 +
                  sigSmall0 (ws.getD (n - 15) 0) + ws.getD (n - 16) 0)
    sha256Extend k (ws ++ [w])

def sha256Round (st : Hash8) (kw : Nat × Nat) : Hash8 :=
  let t1 := w32 (st.h + sigBig1 st.e + chFn st.e st.f st.g + kw.1 + kw.2)
  let t2 := w32 (sigBig0 st.a + majFn st.a st.b st.c)
  ⟨w32 (t1 + t2), st.a, st.b, st.c, w32 (st.d + t1), st.e, st.f, st.g⟩

def sha256Block (h : Hash8) (block16 : List Nat) : Hash8 :=
  let ws := sha256Extend 48 block16
  let r := (sha256K.zip ws).foldl sha256Round h
  ⟨w32 (h.a + r.a), w32 (h.b + r.b), w32 (h.c + r.c), w32 (h.d + r.d),
   w32 (h.e + r.e), w32 (h.f + r.f), w32 (h.g + r.g), w32 (h.h + r.h)⟩

/-- Merkle–Damgård padding (length in bits appended big-endian over 8 bytes). -/
def sha256Pad (msg : List Nat) : List Nat :=
  let len := msg.length
  let bits := 8 * len
  msg ++ [0x80] ++ List.replicate ((119 - len % 64) % 64) 0 ++
    [bits / 2 ^ 56 % 256, bits / 2 ^ 48 % 256, bits / 2 ^ 40 % 256,
     bits / 2 ^ 32 % 256, bits / 2 ^ 24 % 256, bits / 2 ^ 16 % 256,
     bits / 2 ^ 8 % 256, bits % 256]

def bytesToWords : List Nat → List Nat
  | a :: b :: c :: d :: rest =>
    (a * 16777216 + b * 65536 + c * 256 + d) :: bytesToWords rest
  | _ => []

def chunks64 : List Nat → List (List Nat)
  | [] => []
  | c :: rest => (c :: rest).take 64 :: chunks64 ((c :: rest).drop 64)
termination_by l => l.length
decreasing_by
  simp only [List.length_drop, List.length_cons]
  omega

/-- SHA-256 digest (eight 32-bit words) of a byte sequence. -/
def sha256 (msg : List Nat) : Hash8 :=
  (chunks64 (sha256Pad msg)).foldl (fun h blk => sha256Block h (bytesToWords blk))
    sha256H0

def hexDigit (n : Nat) : Char := Nat.digitChar (n % 16)

/-- Eight lowercase hex digits of a 32-bit word. -/
def hex8 (n : Nat) : String :=
  String.mk [hexDigit (n / 2 ^ 28), hexDigit (n / 2 ^ 24), hexDigit (n / 2 ^ 20),
             hexDigit (n / 2 ^ 16), hexDigit (n / 2 ^ 12), hexDigit (n / 2 ^ 8),
             hexDigit (n / 2 ^ 4), hexDigit n]

/-! ## SkillRepository (from `src/clawdbot/src/evolution/skill-repository.ts`)

The on-disk index is read fully into memory and rewritten on every mutation;
the model works on the in-memory `RepositoryIndex` (a JavaScript `Record`
modelled as an insertion-ordered association list) and treats the
write-whole-file `saveIndex` as updating `updatedAt`. -/

/-- Keyed lookup in an insertion-ordered association list (the model of a
JavaScript `Record` / `Map` read). -/
def alFind {α : Type} (l : List (String × α)) (id : String) : Option α :=
  (l.find? (fun p => p.1 == id)).map (·.2)

/-- Keyed store (overwrite in place when the key exists, append otherwise,
as a JavaScript `Record` / `Map` write does). -/
def alStore {α : Type} (l : List (String × α)) (id : String) (v : α) :
    List (String × α) :=
  match l with
  | [] => [(id, v)]
  | (k, w) :: rest =>
    if k == id then (k, v) :: rest else (k, w) :: alStore rest id v

/-- Keyed removal (the model of `Map.delete`). -/
def alRemove {α : Type} (l : List (String × α)) (id : String) :
    List (String × α) :=
  l.filter (fun p => !(p.1 == id))

structure RepositoryIndex where
  version : String
  updatedAt : Nat
  skills : List (String × SkillRepositoryEntry)
deriving DecidableEq, Repr

namespace SkillRepo

/-- `hashCode`: first 16 hex characters of the SHA-256 of the source text. -/
def hashCode (code : String) : String :=
  let h := sha256 (code.toUTF8.toList.map (·.toNat))
  ((hex8 h.a ++ hex8 h.b).take 16 : String)

/-- `sanitizeName`: lower-case, replace characters outside
`[a-z0-9一-龥-]` by `-`, collapse runs of `-`, strip leading/trailing
`-`, falling back to `unnamed-skill`. -/
def sanitizeAllowed (c : Char) : Bool :=
  (97 ≤ c.toNat && c.toNat ≤ 122) || (48 ≤ c.toNat && c.toNat ≤ 57) ||
  (0x4e00 ≤ c.toNat && c.toNat ≤ 0x9fa5) || c.toNat == 45

def collapseDashes : List Char → List Char
  | [] => []
  | [c] => [c]
  | c :: c' :: r =>
    if c = '-' && c' = '-' then collapseDashes (c' :: r)
    else c :: collapseDashes (c' :: r)

def trimDashes (l : List Char) : List Char :=
  ((l.dropWhile (· = '-')).reverse.dropWhile (· = '-')).reverse

def sanitizeName (name : String) : String :=
  let replaced := name.data.map
    (fun c => let c := c.toLower; if sanitizeAllowed c then c else '-')
  let cleaned := trimDashes (collapseDashes replaced)
  if cleaned = [] then "unnamed-skill" else String.mk cleaned

/-- `templateToManifest` (fixed resource limits, as in the source). -/
def templateToManifest (t : SkillTemplate) : SkillManifest :=
  { name := t.name
    version := t.version
    description := t.description
    author := t.author
    triggers := ⟨t.triggers.patterns, t.triggers.intents, t.triggers.commands⟩
    permissions := t.permissions
    limits := ⟨60000, 256, ["./evolved_skills/*"], ["*"]⟩ }

/-- `createEntry` for a freshly added skill. -/
def createEntry (basePath : String) (skill : GeneratedSkill) (now : Nat) :
    SkillRepositoryEntry :=
  let baseName := sanitizeName skill.template.name
  let codeHash := hashCode skill.code.typescript
  { id := skill.id
    manifest := templateToManifest skill.template
    template := skill.template
    paths :=
      { markdown := basePath ++ "/templates/" ++ baseName ++ ".md"
        typescript := basePath ++ "/skills/" ++ baseName ++ ".ts"
        compiled := none }
    versions := [{ version := skill.template.version, timestamp := now,
                   changelog := "初始版本", author := skill.template.author,
                   hash := codeHash }]
    currentVersion := skill.template.version
    stats := { createdAt := now, updatedAt := now, executionCount := 0,
               successRate := 0, averageExecutionTime := 0, lastUsed := none }
    enabled := skill.status = .deployed
    loadState := .unloaded }

/-- `add`: create the entry, store it under the skill id and persist. -/
def add (idx : RepositoryIndex) (basePath : String) (skill : GeneratedSkill)
    (now : Nat) : RepositoryIndex × SkillRepositoryEntry :=
  let entry := createEntry basePath skill now
  ({ idx with skills := alStore idx.skills skill.id entry, updatedAt := now },
   entry)

/-- The fields `updateEntry` is actually invoked with
(`deploySkill` passes paths/enabled/loadState; `deprecate` passes enabled). -/
structure EntryUpdates where
  paths : Option SkillPaths := none
  enabled : Option Bool := none
  loadState : Option LoadState := none
deriving DecidableEq, Repr

def applyUpdates (e : SkillRepositoryEntry) (u : EntryUpdates) :
    SkillRepositoryEntry :=
  { e with paths := u.paths.getD e.paths,
           enabled := u.enabled.getD e.enabled,
           loadState := u.loadState.getD e.loadState }

/-- `updateEntry`: throws `Skill not found` for an unknown id, otherwise
merges the updates and stamps `stats.updatedAt`. -/
def updateEntry (idx : RepositoryIndex) (skillId : String) (u : EntryUpdates)
    (now : Nat) : Except String RepositoryIndex :=
  match alFind idx.skills skillId with
  | none => .error ("Skill not found: " ++ skillId)
  | some e =>
    let e := applyUpdates e u
    let e := { e with stats := { e.stats with updatedAt := now } }
    .ok { idx with skills := alStore idx.skills skillId e, updatedAt := now }

/-- `incrementVersion`: split on `.`, convert parts with `Number`, do
`parts[2] = (parts[2] || 0) + 1`, join with `.`. -/
def incrementVersion (version : String) : String :=
  let parts := (splitDot version.data).map jsNumber
  let parts := setPart2 parts (.num (jsOr0 (parts.getD 2 .hole) + 1))
  String.mk (joinDots (parts.map jsRender))

/-- `updateSkill`: append a new `SkillVersion` with incremented version and
fresh content hash, update current pointers, persist. -/
def updateSkill (idx : RepositoryIndex) (skillId : String)
    (skill : GeneratedSkill) (changelog : String) (now : Nat) :
    Except String RepositoryIndex :=
  match alFind idx.skills skillId with
  | none => .error ("Skill not found: " ++ skillId)
  | some e =>
    let newVersion := incrementVersion e.currentVersion
    let codeHash := hashCode skill.code.typescript
    let v : SkillVersion :=
      { version := newVersion, timestamp := now, changelog := changelog,
        author := skill.template.author, hash := codeHash }
    let e := { e with versions := e.versions ++ [v],
                      currentVersion := newVersion,
                      template := skill.template,
                      manifest := templateToManifest skill.template,
                      stats := { e.stats with updatedAt := now } }
    .ok { idx with skills := alStore idx.skills skillId e, updatedAt := now }

/-- `cleanupOldVersions` on one entry: `versions.slice(-keep)` when more than
`keep` versions exist (JavaScript `slice(-0)` keeps the whole array). -/
def cleanupEntry (e : SkillRepositoryEntry) (keep : Nat) : SkillRepositoryEntry :=
  if e.versions.length > keep then
    { e with versions :=
        if keep = 0 then e.versions else e.versions.drop (e.versions.length - keep) }
  else e

def cleanupOldVersions (idx : RepositoryIndex) (keep : Nat) (now : Nat) :
    RepositoryIndex :=
  { idx with skills := idx.skills.map (fun p => (p.1, cleanupEntry p.2 keep)),
             updatedAt := now }

/-- One iteration of the `import` merge loop (`import` merges without
overwriting): an id already present in the index is left untouched, an
absent one is added. -/
def importStep (skills : List (String × SkillRepositoryEntry))
    (p : String × SkillRepositoryEntry) : List (String × SkillRepositoryEntry) :=
  match alFind skills p.1 with
  | some _ => skills
  | none => alStore skills p.1 p.2

def importIndex (idx : RepositoryIndex)
    (data : List (String × SkillRepositoryEntry)) (now : Nat) :
    RepositoryIndex :=
  { idx with skills := data.foldl importStep idx.skills, updatedAt := now }

end SkillRepo

/-! ## Security review (from `skill-validator.ts`, `performSecurityReview`)

The fixed table of dangerous constructs is a deterministic pattern scan; each
source regex is embedded as an executable matcher over the character list.
`\s` is modelled by its ASCII members (space, tab, and the four ASCII line/page
separators), which covers every character the claims exercise. -/

def isJsWs (c : Char) : Bool :=
  c == ' ' || c == '\t' || c == '\n' || c == '\r' ||
  c.toNat == 11 || c.toNat == 12

/-- Literal-prefix test, recursing on the pattern (so that an exhausted
pattern succeeds without inspecting the rest of the text). -/
def startsWithL : List Char → List Char → Bool
  | [], _ => true
  | p :: ps, s =>
    match s with
    | [] => false
    | c :: cs => p == c && startsWithL ps cs

/-- Match a literal at the current position, returning the rest. -/
def litP (p : List Char) (s : List Char) : Option (List Char) :=
  if startsWithL p s then some (s.drop p.length) else none

/-- Greedy `\s*` (the following literal is never a whitespace character, so
greediness agrees with the backtracking regex engine). -/
def wsStarP (s : List Char) : Option (List Char) :=
  some (s.dropWhile isJsWs)

/-- Greedy `\s+`. -/
def wsPlusP : List Char → Option (List Char)
  | [] => none
  | c :: r => if isJsWs c then some ((c :: r).dropWhile isJsWs) else none

/-- One of `` ` ``, `'`, `"` (the character class in ``[`'"]``),
written via code points 96, 39, 34. -/
def quoteP : List Char → Option (List Char)
  | [] => none
  | c :: r =>
    if c.toNat == 96 || c.toNat == 39 || c.toNat == 34 then some r else none

/-- Index of the last `+` inside the maximal `)`-free run
(the greedy `[^)]*\+` tail of the SSRF pattern). -/
def lastPlusIdx : List Char → Option Nat
  | [] => none
  | c :: r =>
    if c = ')' then none
    else
      match lastPlusIdx r with
      | some i => some (i + 1)
      | none => if c = '+' then some 0 else none

/-- Regex `/eval\s*\(/` at the current position. -/
def evalM (s : List Char) : Option (List Char) :=
  litP "eval".data s >>= wsStarP >>= litP "(".data

/-- Regex `/new\s+Function\s*\(/` at the current position. -/
def newFunctionM (s : List Char) : Option (List Char) :=
  litP "new".data s >>= wsPlusP >>= litP "Function".data >>= wsStarP >>=
    litP "(".data

/-- Regex `/child_process/` at the current position. -/
def childProcessM (s : List Char) : Option (List Char) :=
  litP "child_process".data s

/-- Regex `` /require\s*\(\s*[`'"]fs[`'"]\s*\)/ `` at the current position. -/
def requireFsM (s : List Char) : Option (List Char) :=
  litP "require".data s >>= wsStarP >>= litP "(".data >>= wsStarP >>=
    quoteP >>= litP "fs".data >>= quoteP >>= wsStarP >>= litP ")".data

/-- Regex `/process\.env/` at the current position. -/
def processEnvM (s : List Char) : Option (List Char) :=
  litP "process.env".data s

/-- Regex `/fetch\s*\([^)]*\+/` at the current position. -/
def fetchConcatM (s : List Char) : Option (List Char) :=
  (litP "fetch".data s >>= wsStarP >>= litP "(".data) >>= fun r =>
    (lastPlusIdx r).map (fun i => r.drop (i + 1))

/-- Regex `/innerHTML|outerHTML/` at the current position. -/
def htmlInjectionM (s : List Char) : Option (List Char) :=
  (litP "innerHTML".data s).orElse (fun _ => litP "outerHTML".data s)

/-- Regex `/\.exec\s*\(/` at the current position. -/
def execM (s : List Char) : Option (List Char) :=
  litP ".exec".data s >>= wsStarP >>= litP "(".data

/-- Matched text at the current position (regex `match[0]`). -/
def matchTxtAt (f : List Char → Option (List Char)) (s : List Char) :
    Option (List Char) :=
  (f s).map (fun r => s.take (s.length - r.length))

/-- Leftmost match of a pattern over the whole text
(regex `pattern.test` / `code.match(pattern)[0]`). -/
def firstMatchTxt (f : List Char → Option (List Char)) :
    List Char → Option (List Char)
  | [] => matchTxtAt f []
  | c :: rest => (matchTxtAt f (c :: rest)).orElse (fun _ => firstMatchTxt f rest)

/-- One row of the `dangerousPatterns` table. -/
structure DangerEntry where
  matchAt : List Char → Option (List Char)
  severity : Severity
  category : String
  description : String
  mitigation : String

/-- The fixed `dangerousPatterns` table of `performSecurityReview`. -/
def dangerousPatterns : List DangerEntry :=
  [⟨evalM, .critical, "code-injection",
    "使用了eval函数，可能导致代码注入", "使用JSON.parse或其他安全的解析方法"⟩,
   ⟨newFunctionM, .critical, "code-injection",
    "使用了Function构造函数，可能导致代码注入", "避免动态生成函数"⟩,
   ⟨childProcessM, .high, "process-execution",
    "使用了child_process模块，可能执行任意命令", "确保命令参数经过严格验证"⟩,
   ⟨requireFsM, .medium, "file-access",
    "直接使用fs模块，需要检查文件访问权限", "使用沙箱化的文件访问方法"⟩,
   ⟨processEnvM, .medium, "environment-access",
    "访问环境变量，可能泄露敏感信息", "只访问必要的环境变量"⟩,
   ⟨fetchConcatM, .medium, "ssrf",
    "URL可能被拼接，存在SSRF风险", "验证和清理URL输入"⟩,
   ⟨htmlInjectionM, .medium, "xss",
    "可能存在XSS漏洞", "使用安全的DOM操作方法"⟩,
   ⟨execM, .low, "regex-dos",
    "正则表达式exec可能导致ReDoS", "限制输入长度和正则复杂度"⟩]

/-- The risk produced by one row of the dangerous-pattern table when its
pattern matches the source (with the matched text recorded as location). -/
def dangerRiskOf (code : List Char) (e : DangerEntry) : Option SecurityRisk :=
  (firstMatchTxt e.matchAt code).map
    (fun txt =>
      { severity := e.severity, category := e.category,
        description := e.description,
        location := some ("包含: " ++ String.mk txt),
        mitigation := some e.mitigation })

/-- `performSecurityReview`. `regexTest pat code` models
`new RegExp(pat).test(code)` for the configured blocked patterns, whose
regexes are compiled dynamically at run time. -/
def performSecurityReview (cfg : EvolutionConfig)
    (regexTest : String → String → Bool) (skill : GeneratedSkill) :
    SecurityReviewResult :=
  let code := skill.code.typescript
  let blockedRisks : List SecurityRisk := cfg.security.blockedPatterns.filterMap
    (fun p =>
      if regexTest p code then
        some { severity := .critical, category := "blocked-pattern",
               description := "使用了禁止的模式: " ++ p, location := none,
               mitigation := some "移除或替换此代码模式" }
      else none)
  let dangerRisks : List SecurityRisk :=
    dangerousPatterns.filterMap (dangerRiskOf code.data)
  let permRisks : List SecurityRisk := skill.template.permissions.filterMap
    (fun p =>
      if cfg.security.allowedPermissions.contains p then none
      else
        some { severity := .high, category := "unauthorized-permission",
               description := "请求了未授权的权限: " ++ p, location := none,
               mitigation := some "移除此权限或申请授权" })
  let risks := blockedRisks ++ dangerRisks ++ permRisks
  let recommendations :=
    if risks.isEmpty then []
    else
      ["建议进行人工安全审核", "考虑在沙箱环境中运行"] ++
        (if risks.any (fun r => decide (r.severity = .critical)) then
          ["存在严重安全风险，建议重新生成"]
        else [])
  { passed := !(risks.any (fun r => decide (r.severity = .critical))) &&
      (!(risks.any (fun r => decide (r.severity = .high))) ||
        !cfg.security.requireReview),
    risks := risks,
    recommendations := recommendations }

/-! ## SelfEvolutionEngine (from `self-evolution-engine.ts`)

The engine's mutable fields (`pendingGaps`, `evolutionHistory`, `isEvolving`,
the repository index) form `EngineState`; the generator/validator/compiler
stages, which each perform a text-completion or filesystem call that may
throw, form `EngineEnv` (an `.error` result models a thrown exception).
Because `evolveSkill` shares the gap object with its callers and with the
`pendingGaps` map, every in-place status mutation is written back to the map
while the gap is present, and the gap's final value is returned alongside
the state (`gapFinal`). -/

structure EngineState where
  config : EvolutionConfig
  pendingGaps : List (String × CapabilityGap)
  history : List EvolutionEvent
  isEvolving : Bool
  repo : RepositoryIndex
  now : Nat
  nextEventId : Nat

structure EngineEnv where
  generateSkill : CapabilityGap → Except String GeneratedSkill
  validate : GeneratedSkill → Except String GeneratedSkill
  repairCode : GeneratedSkill → String → Except String String
  savePaths : GeneratedSkill → Except String (String × String)

/-- One engine-level stage invocation, with whether it completed without
throwing (used to observe how often each stage ran). -/
inductive StageCall where
  | generate (ok : Bool)
  | validate (ok : Bool)
  | repair (ok : Bool)
  | save (ok : Bool)
  | entryUpdate (ok : Bool)
deriving DecidableEq, Repr

/-- `logEvent`: append the event, trimming the history to its last 500
entries once it exceeds 1000. -/
def logEvent (st : EngineState) (ty : EvolutionEventType) (d : EventDetails) :
    EngineState :=
  let ev : EvolutionEvent :=
    { id := st.nextEventId, timestamp := st.now, type := ty, details := d }
  let hist := st.history ++ [ev]
  let hist := if hist.length > 1000 then hist.drop (hist.length - 500) else hist
  { st with history := hist, nextEventId := st.nextEventId + 1 }

def storeGapSt (st : EngineState) (id : String) (g : CapabilityGap) :
    EngineState :=
  { st with pendingGaps := alStore st.pendingGaps id g }

def sevStr : Severity → String
  | .low => "low"
  | .medium => "medium"
  | .high => "high"
  | .critical => "critical"

/-- `collectValidationErrors`: the gate-by-gate error report fed to repair. -/
def collectValidationErrors (skill : GeneratedSkill) : String :=
  let v := skill.validation
  let errors :=
    (if !v.syntaxValid then ["语法验证失败"] else []) ++
    (if !v.typeCheckPassed then ["类型检查失败"] else []) ++
    (if !v.securityReview.passed then
      "安全审查未通过" ::
        v.securityReview.risks.map
          (fun r => "- " ++ sevStr r.severity ++ ": " ++ r.description)
    else []) ++
    (let failedTests := v.testResults.filter (fun t => !t.passed)
     if failedTests.length > 0 then
       (Nat.repr failedTests.length ++ "个测试失败") ::
         failedTests.map
           (fun t => "- " ++ t.testCaseId ++ ": " ++ t.error.getD "未通过")
     else [])
  String.intercalate "\n" errors

/-- `SkillGenerator.repairSkill`: one repair round-trip; on a parseable
completion the code is replaced and the iteration count is incremented by
exactly one. -/
def repairSkillM (env : EngineEnv) (skill : GeneratedSkill)
    (errorMessage : String) : Except String GeneratedSkill :=
  match env.repairCode skill errorMessage with
  | .error e => .error e
  | .ok c =>
    .ok { skill with
            code := { skill.code with typescript := c },
            generation := { skill.generation with
                              iterations := skill.generation.iterations + 1 } }

/-- Result of the `try` block of `evolveSkill`: a return value or an
exception arriving at the engine boundary, with the state and gap object
as they stand at that moment. -/
inductive BodyRes where
  | ret (skill : Option GeneratedSkill) (st : EngineState) (g : CapabilityGap)
  | thrown (e : String) (st : EngineState) (g : CapabilityGap)

/-- `deploySkill`: mark deployed, save files, `updateEntry` (which throws
`Skill not found` when the id has not been added yet), log `skill_deployed`.
The source hands `updateEntry` the saved `markdownPath`/`typescriptPath`
pair as the entry's `paths`. -/
def deployM (env : EngineEnv) (st : EngineState) (skill : GeneratedSkill) :
    Except String (EngineState × GeneratedSkill) × List StageCall :=
  let skill := { skill with status := .deployed }
  match env.savePaths skill with
  | .error e => (.error e, [.save false])
  | .ok (md, ts) =>
    match SkillRepo.updateEntry st.repo skill.id
        { paths := some ⟨md, ts, none⟩, enabled := some true,
          loadState := some .unloaded } st.now with
    | .error e => (.error e, [.save true, .entryUpdate false])
    | .ok repo' =>
      let st := { st with repo := repo' }
      let st := logEvent st .skill_deployed ⟨none, some skill, "deploy", .success, none⟩
      (.ok (st, skill), [.save true, .entryUpdate true])

/-- The tail of `evolveSkill` once validation has passed: log
`validation_passed`, deploy immediately (auto-approve or no review required)
or mark `validated`, then persist via `repository.add` and drop the gap from
the pending set. -/
def finishValidated (env : EngineEnv) (st : EngineState) (gapId : String)
    (g : CapabilityGap) (skill : GeneratedSkill) (tr : List StageCall) :
    BodyRes × List StageCall :=
  let st := logEvent st .validation_passed ⟨none, some skill, "validate", .success, none⟩
  if st.config.deployment.autoApprove || !st.config.security.requireReview then
    match deployM env st skill with
    | (.error e, tr') => (.thrown e st g, tr ++ tr')
    | (.ok (st', skill'), tr') =>
      let g := { g with status := .resolved }
      let st' := storeGapSt st' gapId g
      let st' := { st' with
        repo := (SkillRepo.add st'.repo st'.config.repository.path skill' st'.now).1 }
      let st' := { st' with pendingGaps := alRemove st'.pendingGaps gapId }
      (.ret (some skill') st' g, tr ++ tr')
  else
    let skill := { skill with status := .validated }
    let st := { st with
      repo := (SkillRepo.add st.repo st.config.repository.path skill st.now).1 }
    let st := { st with pendingGaps := alRemove st.pendingGaps gapId }
    (.ret (some skill) st g, tr)

/-- The `try` block of `evolveSkill`: generate, validate, on failure repair
exactly once and re-validate exactly once, then either finish or mark the
gap failed. -/
def tryBody (env : EngineEnv) (st : EngineState) (gapId : String)
    (g : CapabilityGap) : BodyRes × List StageCall :=
  let st := logEvent st .generation_started ⟨some g, none, "generate", .success, none⟩
  match env.generateSkill g with
  | .error e => (.thrown e st g, [.generate false])
  | .ok skill =>
    let st := logEvent st .validation_started ⟨none, some skill, "validate", .success, none⟩
    match env.validate skill with
    | .error e => (.thrown e st g, [.generate true, .validate false])
    | .ok vskill =>
      if vskill.validation.status = .passed then
        finishValidated env st gapId g vskill [.generate true, .validate true]
      else
        match repairSkillM env vskill (collectValidationErrors vskill) with
        | .error e =>
          (.thrown e st g, [.generate true, .validate true, .repair false])
        | .ok rskill =>
          match env.validate rskill with
          | .error e =>
            (.thrown e st g,
             [.generate true, .validate true, .repair true, .validate false])
          | .ok rvskill =>
            if rvskill.validation.status = .passed then
              finishValidated env st gapId g rvskill
                [.generate true, .validate true, .repair true, .validate true]
            else
              let st := logEvent st .validation_failed
                ⟨none, some rvskill, "validate", .failure, some "修复后仍未通过验证"⟩
              let g := { g with status := .failed }
              let st := storeGapSt st gapId g
              (.ret none st g,
               [.generate true, .validate true, .repair true, .validate true])

/-- The statements before the `try` block: acquire the busy flag and move the
gap to `generating`. -/
def startPipeline (st : EngineState) (gapId : String) (g : CapabilityGap) :
    EngineState × CapabilityGap :=
  let g' := { g with status := .generating }
  (storeGapSt { st with isEvolving := true } gapId g', g')

structure EvolveOut where
  result : Except String (Option GeneratedSkill)
  state : EngineState
  gapFinal : Option CapabilityGap
  trace : List StageCall

/-- `evolveSkill`: unknown gap throws to the caller; a busy engine drops the
call with `null`; otherwise the pipeline runs, exceptions from its body are
caught (gap marked failed, `generation_completed`/failure logged, `null`
returned), and the `finally` clause releases the busy flag on every path. -/
def evolveSkill (env : EngineEnv) (st0 : EngineState) (gapId : String) :
    EvolveOut :=
  match alFind st0.pendingGaps gapId with
  | none => ⟨.error ("Gap not found: " ++ gapId), st0, none, []⟩
  | some gap0 =>
    if st0.isEvolving then ⟨.ok none, st0, some gap0, []⟩
    else
      let p := startPipeline st0 gapId gap0
      match tryBody env p.1 gapId p.2 with
      | (.ret r st g, tr) => ⟨.ok r, { st with isEvolving := false }, some g, tr⟩
      | (.thrown e st g, tr) =>
        let g := { g with status := .failed }
        let st := storeGapSt st gapId g
        let st := logEvent st .generation_completed
          ⟨some g, none, "generate", .failure, some e⟩
        ⟨.ok none, { st with isEvolving := false }, some g, tr⟩

/-- `createSkillFromDescription`: synthesize a gap from a user description
(`freshId` models the `randomUUID()` result), register it and run the same
pipeline. -/
def createSkillFromDescription (env : EngineEnv) (st : EngineState)
    (description : String) (freshId : String) : EvolveOut :=
  let gap : CapabilityGap :=
    { id := freshId, timestamp := st.now,
      context := ⟨description, [], "用户主动请求创建新技能"⟩,
      requiredCapability := ⟨description, .utility, none, .medium⟩,
      status := .identified }
  evolveSkill env (storeGapSt st freshId gap) freshId

/-! ## Reachable repository states and version well-formedness (for the
lineage invariant) -/

/-- A `major.minor.patch` version string with decimal components. -/
def mkVer (a b c : Nat) : String :=
  String.mk (natToDigits a ++ '.' :: (natToDigits b ++ '.' :: natToDigits c))

/-- Repository indexes reachable by any sequence of `add`, `updateSkill` and
`cleanupOldVersions` operations from an empty index. -/
inductive RepoReach : RepositoryIndex → Prop where
  | init (ver : String) (ua : Nat) : RepoReach ⟨ver, ua, []⟩
  | add {idx : RepositoryIndex} (bp : String) (skill : GeneratedSkill)
      (now : Nat) : RepoReach idx → RepoReach (SkillRepo.add idx bp skill now).1
  | update {idx idx' : RepositoryIndex} (id : String) (skill : GeneratedSkill)
      (ch : String) (now : Nat) : RepoReach idx →
      SkillRepo.updateSkill idx id skill ch now = .ok idx' → RepoReach idx'
  | cleanup {idx : RepositoryIndex} (keep : Nat) (now : Nat) :
      RepoReach idx → RepoReach (SkillRepo.cleanupOldVersions idx keep now)

/-- `N` successive `updateSkill` calls on the same id. -/
def updIter (id : String) (skill : GeneratedSkill) (ch : String) (now : Nat) :
    Nat → RepositoryIndex → Except String RepositoryIndex
  | 0, idx => .ok idx
  | n + 1, idx =>
    match SkillRepo.updateSkill idx id skill ch now with
    | .error e => .error e
    | .ok idx' => updIter id skill ch now n idx'

/-! ## Concrete fixtures used by the closed theorems and witnesses -/

/-- The engine's `getDefaultConfig()` (from `self-evolution-engine.ts`). -/
def cfgBase : EvolutionConfig :=
  { autoEvolve := true
    generation := ⟨"claude-sonnet-4-20250514", 3, 120000⟩
    validation := ⟨true, true, true, (8 : Rat) / 10⟩
    deployment := ⟨false, true, true⟩
    repository := ⟨"./evolved_skills", 100, true⟩
    security := ⟨["file:read", "file:write", "network:http"],
                 ["eval\\(", "Function\\(", "child_process"], true⟩ }

/-- Default configuration with `deployment.autoApprove` switched on. -/
def cfgAuto : EvolutionConfig :=
  { cfgBase with deployment := { cfgBase.deployment with autoApprove := true } }

def tmpl0 : SkillTemplate :=
  { name := "csv-to-records", version := "1.0.0"
    description := "convert CSV text to a list of records"
    author := "self-evolution-engine", category := .fileProcessing
    triggers := ⟨[], [], [], []⟩, permissions := []
    logic := ⟨[], []⟩, dependencies := ⟨[], [], []⟩, testCases := [] }

def pendingRecord : ValidationRecord :=
  ⟨.pending, false, false, [], ⟨false, [], []⟩⟩

def passedRecord : ValidationRecord :=
  ⟨.passed, true, true, [], ⟨true, [], []⟩⟩

def failedRecord : ValidationRecord :=
  ⟨.failed, false, false, [], ⟨false, [], []⟩⟩

def skillDraft : GeneratedSkill :=
  ⟨"skill-1", tmpl0, ⟨"class CsvSkill extends BaseSkill", none⟩,
   ⟨0, "m", "p", 1⟩, pendingRecord, .draft⟩

/-- Environment in which every stage succeeds and validation passes. -/
def envOk : EngineEnv :=
  { generateSkill := fun _ => .ok skillDraft
    validate := fun s => .ok { s with validation := passedRecord, status := .validated }
    repairCode := fun _ _ => .ok "repaired-code"
    savePaths := fun _ => .ok ("./evolved_skills/x.md", "./evolved_skills/x.ts") }

/-- Environment whose validation verdict is `failed` on every run. -/
def envAlwaysFail : EngineEnv :=
  { envOk with validate := fun s => .ok { s with validation := failedRecord } }

def gap0 : CapabilityGap :=
  ⟨"g1", 0, ⟨"parse the attached csv", [], "no skill matched"⟩,
   ⟨"convert CSV text to a list of records", .fileProcessing, none, .low⟩,
   .identified⟩

def emptyIdx : RepositoryIndex := ⟨"1.0.0", 0, []⟩

/-- Idle engine holding the pending gap `g1`, auto-approve configured. -/
def stAuto : EngineState :=
  { config := cfgAuto, pendingGaps := [("g1", gap0)], history := []
    isEvolving := false, repo := emptyIdx, now := 0, nextEventId := 0 }

/-- Same engine but with the default manual-review configuration. -/
def stManual : EngineState := { stAuto with config := cfgBase }

/-- Same engine while another pipeline run is in flight. -/
def stBusy : EngineState := { stAuto with isEvolving := true }

def entry0 : SkillRepositoryEntry :=
  SkillRepo.createEntry "./evolved_skills" skillDraft 0

def idx0 : RepositoryIndex := ⟨"1.0.0", 0, [("skill-1", entry0)]⟩

/-- A conflicting imported entry under an id already present in `idx0`. -/
def entryB : SkillRepositoryEntry := { entry0 with currentVersion := "9.9.9" }

def entry2 : SkillRepositoryEntry := { entry0 with id := "skill-2" }

/-- A generated skill whose source contains a dynamic code evaluation call. -/
def skillEval : GeneratedSkill :=
  { skillDraft with code := ⟨"const r = eval(input)", none⟩ }

/-- Blocked-pattern regex oracle that never matches (the dangerous-pattern
table fires independently of it). -/
def rtNone : String → String → Bool := fun _ _ => false

/-! ## Helper lemmas on the association-list model -/

theorem alFind_nil {α : Type} (id : String) : alFind ([] : List (String × α)) id = none := rfl

theorem alFind_cons {α : Type} (k : String) (w : α) (rest : List (String × α))
    (id : String) :
    alFind ((k, w) :: rest) id = if k == id then some w else alFind rest id := by
  by_cases h : k == id
  · simp [alFind, List.find?_cons_of_pos, h]
  · simp only [alFind, List.find?]
    rw [if_neg (by simpa using h)]
    simp [h]

theorem alStore_cons {α : Type} (k : String) (w : α) (rest : List (String × α))
    (id : String) (v : α) :
    alStore ((k, w) :: rest) id v =
      if k == id then (k, v) :: rest else (k, w) :: alStore rest id v := rfl

theorem alFind_store_self {α : Type} (l : List (String × α)) (id : String)
    (v : α) : alFind (alStore l id v) id = some v := by
  induction l with
  | nil => simp [alStore, alFind_cons]
  | cons p rest ih =>
    obtain ⟨k, w⟩ := p
    rw [alStore_cons]
    by_cases h : k == id
    · rw [if_pos h, alFind_cons, if_pos h]
    · rw [if_neg h, alFind_cons, if_neg h]
      exact ih

theorem alFind_store_ne {α : Type} (l : List (String × α)) (id : String)
    (v : α) {k : String} (h : k ≠ id) :
    alFind (alStore l id v) k = alFind l k := by
  induction l with
  | nil =>
    simp only [alStore, alFind_cons, alFind_nil]
    rw [if_neg (by simpa using fun hh => h hh.symm)]
  | cons p rest ih =>
    obtain ⟨k', w⟩ := p
    rw [alStore_cons]
    by_cases h' : k' == id
    · rw [if_pos h', alFind_cons, alFind_cons]
      have : (k' == k) = false := by
        have : k' = id := by simpa using h'
        subst this
        simpa using fun hh => h hh.symm
      rw [this]
      simp
    · rw [if_neg h', alFind_cons, alFind_cons]
      by_cases hk : k' == k
      · rw [if_pos hk, if_pos hk]
      · rw [if_neg hk, if_neg hk]
        exact ih

theorem alFind_map {α β : Type} (f : α → β) (l : List (String × α))
    (id : String) :
    alFind (l.map (fun p => (p.1, f p.2))) id = (alFind l id).map f := by
  induction l with
  | nil => rfl
  | cons p rest ih =>
    obtain ⟨k, w⟩ := p
    simp only [List.map_cons]
    rw [alFind_cons, alFind_cons]
    by_cases h : k == id
    · rw [if_pos h, if_pos h]
      rfl
    · rw [if_neg h, if_neg h]
      exact ih

theorem getLast?_drop_of_lt {α : Type} :
    ∀ (l : List α) (k : Nat), k < l.length → (l.drop k).getLast? = l.getLast? := by
  intro l
  induction l with
  | nil => intro k h; simp at h
  | cons c r ih =>
    intro k h
    match k with
    | 0 => rfl
    | k + 1 =>
      simp only [List.drop_succ_cons]
      match r with
      | [] => simp at h
      | x :: xs =>
        rw [List.getLast?_cons_cons]
        exact ih k (by simpa using h)

/-! ## C10 — import is non-destructive -/

theorem importFold_spec :
    ∀ (data acc : List (String × SkillRepositoryEntry)),
      (∀ id e, alFind acc id = some e →
        alFind (data.foldl SkillRepo.importStep acc) id = some e) ∧
      (∀ id, alFind acc id = none →
        alFind (data.foldl SkillRepo.importStep acc) id = alFind data id) := by
  intro data
  induction data with
  | nil =>
    intro acc
    exact ⟨fun id e h => h, fun id h => by simpa [alFind_nil] using h⟩
  | cons p rest ih =>
    intro acc
    obtain ⟨k, v⟩ := p
    have hstep : ∀ id e, alFind acc id = some e →
        alFind (SkillRepo.importStep acc (k, v)) id = some e := by
      intro id e h
      simp only [SkillRepo.importStep]
      rcases hk : alFind acc k with _ | w
      · have hne : id ≠ k := by
          rintro rfl
          rw [hk] at h
          exact Option.noConfusion h
        rw [alFind_store_ne _ _ _ hne]
        exact h
      · exact h
    constructor
    · intro id e h
      simp only [List.foldl_cons]
      exact (ih _).1 id e (hstep id e h)
    · intro id h
      simp only [List.foldl_cons]
      rw [alFind_cons]
      by_cases hid : k == id
      · have hkid : k = id := by simpa using hid
        subst hkid
        rw [if_pos (by simp)]
        have hacc : alFind (SkillRepo.importStep acc (k, v)) k = some v := by
          simp only [SkillRepo.importStep, h]
          exact alFind_store_self _ _ _
        exact (ih _).1 k v hacc
      · rw [if_neg hid]
        have hkid : id ≠ k := by
          intro hh
          exact hid (by simp [hh])
        have hacc : alFind (SkillRepo.importStep acc (k, v)) id = none := by
          simp only [SkillRepo.importStep]
          rcases hk : alFind acc k with _ | w
          · rw [alFind_store_ne _ _ _ hkid]
            exact h
          · exact h
        exact (ih _).2 id hacc

/-- C10: repository import is non-destructive — every id already present in
the index keeps its existing entry unchanged (imported data never overwrites
it), and an id absent from the index ends up mapped to the first imported
entry for that id (so only absent ids are added). -/
theorem import_non_destructive (idx : RepositoryIndex)
    (data : List (String × SkillRepositoryEntry)) (now : Nat) :
    (∀ id e, alFind idx.skills id = some e →
      alFind (SkillRepo.importIndex idx data now).skills id = some e) ∧
    (∀ id, alFind idx.skills id = none →
      alFind (SkillRepo.importIndex idx data now).skills id = alFind data id) := by
  simpa only [SkillRepo.importIndex] using importFold_spec data idx.skills

/-- Witness for C10: importing an index that redefines `skill-1` and adds
`skill-2` into `idx0` keeps `idx0`'s entry for `skill-1` and adds `skill-2`. -/
theorem import_non_destructive_witness :
    alFind (SkillRepo.importIndex idx0
      [("skill-1", entryB), ("skill-2", entry2)] 5).skills "skill-1" =
        some entry0 ∧
    alFind (SkillRepo.importIndex idx0
      [("skill-1", entryB), ("skill-2", entry2)] 5).skills "skill-2" =
        some entry2 := by
  constructor
  · exact (import_non_destructive idx0 [("skill-1", entryB), ("skill-2", entry2)] 5).1
      "skill-1" entry0 rfl
  · have h2 := (import_non_destructive idx0
      [("skill-1", entryB), ("skill-2", entry2)] 5).2 "skill-2" rfl
    rw [h2]
    rfl

/-! ## C7 — content hashing and the (absent) no-op short-circuit -/

/-- Counterexample for C7: `idx0` stores `skill-1` whose current (initial)
version hash is the digest of `skillDraft`'s source; calling `updateSkill`
with that identical source text still appends a new version record
(`versions` grows from 1 to 2), so `updateSkill` does not short-circuit
no-op version bumps. -/
theorem updateSkill_identical_source_appends :
    (alFind idx0.skills "skill-1").map (fun e => e.versions.length) = some 1 ∧
    ((SkillRepo.updateSkill idx0 "skill-1" skillDraft "noop" 1).toOption.bind
      (fun i => (alFind i.skills "skill-1").map (fun e => e.versions.length))) =
      some 2 := by
  exact ⟨rfl, rfl⟩

/-- C7 (amended): content hashing is a deterministic function of the source
text, but `updateSkill` makes no use of it to skip no-op updates: for every
stored entry it unconditionally appends exactly one new version record —
whose hash is the same deterministic digest when the source is unchanged —
and bumps the current version. -/
theorem hashCode_deterministic_updateSkill_always_appends
    (idx : RepositoryIndex) (id : String) (e : SkillRepositoryEntry)
    (skill : GeneratedSkill) (ch : String) (now : Nat)
    (h : alFind idx.skills id = some e) :
    (∀ c₁ c₂ : String, c₁ = c₂ → SkillRepo.hashCode c₁ = SkillRepo.hashCode c₂) ∧
    ∃ idx', SkillRepo.updateSkill idx id skill ch now = .ok idx' ∧
      alFind idx'.skills id = some
        { e with
            versions := e.versions ++
              [{ version := SkillRepo.incrementVersion e.currentVersion,
                 timestamp := now, changelog := ch,
                 author := skill.template.author,
                 hash := SkillRepo.hashCode skill.code.typescript }],
            currentVersion := SkillRepo.incrementVersion e.currentVersion,
            template := skill.template,
            manifest := SkillRepo.templateToManifest skill.template,
            stats := { e.stats with updatedAt := now } } := by
  refine ⟨fun c₁ c₂ hc => by rw [hc], ?_⟩
  simp only [SkillRepo.updateSkill, h]
  exact ⟨_, rfl, alFind_store_self _ _ _⟩

/-- Witness for C7's amended theorem at the concrete `idx0`. -/
theorem hashCode_deterministic_updateSkill_always_appends_witness :
    (∀ c₁ c₂ : String, c₁ = c₂ → SkillRepo.hashCode c₁ = SkillRepo.hashCode c₂) ∧
    ∃ idx', SkillRepo.updateSkill idx0 "skill-1" skillDraft "noop2" 2 = .ok idx' := by
  have h := hashCode_deterministic_updateSkill_always_appends idx0 "skill-1"
    entry0 skillDraft "noop2" 2 rfl
  exact ⟨h.1, h.2.elim (fun i hi => ⟨i, hi.1⟩)⟩

/-! ## C8 — version lineage invariant -/

theorem natToDigits_ne_nil (n : Nat) : natToDigits n ≠ [] := by
  rw [natToDigits]
  split
  · simp
  · simp

theorem digitChar_isDigit {n : Nat} (h : n < 10) :
    (Nat.digitChar n).isDigit = true := by
  interval_cases n <;> decide

theorem digitChar_toNat {n : Nat} (h : n < 10) :
    (Nat.digitChar n).toNat = n + 48 := by
  interval_cases n <;> decide

theorem natToDigits_all_digit (n : Nat) :
    ∀ c ∈ natToDigits n, c.isDigit = true := by
  induction n using Nat.strong_induction_on with
  | _ n ih =>
    rw [natToDigits]
    split
    · next h =>
      intro c hc
      simp only [List.mem_singleton] at hc
      subst hc
      exact digitChar_isDigit h
    · next h =>
      intro c hc
      rw [List.mem_append] at hc
      rcases hc with hc | hc
      · exact ih (n / 10) (Nat.div_lt_self (by omega) (by omega)) c hc
      · simp only [List.mem_singleton] at hc
        subst hc
        exact digitChar_isDigit (Nat.mod_lt _ (by omega))

theorem dot_not_mem_natToDigits (n : Nat) : '.' ∉ natToDigits n := by
  intro h
  have := natToDigits_all_digit n _ h
  exact absurd this (by decide)

theorem digitsToNat_append_digit (xs : List Char) (c : Char) :
    digitsToNat (xs ++ [c]) = 10 * digitsToNat xs + (c.toNat - 48) := by
  simp [digitsToNat, List.foldl_append]

theorem digitsToNat_natToDigits (n : Nat) : digitsToNat (natToDigits n) = n := by
  induction n using Nat.strong_induction_on with
  | _ n ih =>
    rw [natToDigits]
    split
    · next h =>
      show digitsToNat ([] ++ [Nat.digitChar n]) = n
      rw [digitsToNat_append_digit, digitChar_toNat h]
      simp [digitsToNat]
    · next h =>
      rw [digitsToNat_append_digit,
          ih (n / 10) (Nat.div_lt_self (by omega) (by omega)),
          digitChar_toNat (Nat.mod_lt _ (by omega))]
      omega

theorem jsNumber_natToDigits (n : Nat) : jsNumber (natToDigits n) = .num n := by
  rw [jsNumber, if_neg (natToDigits_ne_nil n), if_pos, digitsToNat_natToDigits]
  rw [List.all_eq_true]
  exact natToDigits_all_digit n

theorem splitDot_append_dot (x : List Char) (r : List Char) (h : '.' ∉ x) :
    splitDot (x ++ '.' :: r) = x :: splitDot r := by
  induction x with
  | nil => simp [splitDot]
  | cons c xs ih =>
    have hc : ¬(c = '.') := fun hh => h (hh ▸ List.mem_cons_self c xs)
    have hx : '.' ∉ xs := fun hh => h (List.mem_cons_of_mem _ hh)
    simp only [List.cons_append, splitDot, List.append_eq]
    rw [if_neg hc, ih hx]

theorem splitDot_no_dot (x : List Char) (h : '.' ∉ x) : splitDot x = [x] := by
  induction x with
  | nil => rfl
  | cons c xs ih =>
    have hc : ¬(c = '.') := fun hh => h (hh ▸ List.mem_cons_self c xs)
    have hx : '.' ∉ xs := fun hh => h (List.mem_cons_of_mem _ hh)
    simp only [splitDot]
    rw [if_neg hc, ih hx]

theorem mk_data (l : List Char) : (String.mk l).data = l := rfl

theorem incrementVersion_mkVer (a b c : Nat) :
    SkillRepo.incrementVersion (mkVer a b c) = mkVer a b (c + 1) := by
  unfold SkillRepo.incrementVersion mkVer
  rw [mk_data,
      splitDot_append_dot _ _ (dot_not_mem_natToDigits a),
      splitDot_append_dot _ _ (dot_not_mem_natToDigits b),
      splitDot_no_dot _ (dot_not_mem_natToDigits c)]
  simp only [List.map_cons, List.map_nil, jsNumber_natToDigits]
  rfl

/-- Effect of one `updateSkill` call on the stored entry (used both for the
lineage invariant and the patch-increment property). -/
theorem updateSkill_step (idx : RepositoryIndex) (id : String)
    (e : SkillRepositoryEntry) (skill : GeneratedSkill) (ch : String) (now : Nat)
    (h : alFind idx.skills id = some e) :
    ∃ idx', SkillRepo.updateSkill idx id skill ch now = .ok idx' ∧
      alFind idx'.skills id = some
        { e with
            versions := e.versions ++
              [{ version := SkillRepo.incrementVersion e.currentVersion,
                 timestamp := now, changelog := ch,
                 author := skill.template.author,
                 hash := SkillRepo.hashCode skill.code.typescript }],
            currentVersion := SkillRepo.incrementVersion e.currentVersion,
            template := skill.template,
            manifest := SkillRepo.templateToManifest skill.template,
            stats := { e.stats with updatedAt := now } } ∧
      ∀ k, k ≠ id → alFind idx'.skills k = alFind idx.skills k := by
  simp only [SkillRepo.updateSkill, h]
  exact ⟨_, rfl, alFind_store_self _ _ _, fun k hk => alFind_store_ne _ _ _ hk⟩

theorem alFind_cleanup_map (keep : Nat)
    (l : List (String × SkillRepositoryEntry)) (id : String) :
    alFind (l.map (fun p => (p.1, SkillRepo.cleanupEntry p.2 keep))) id =
      (alFind l id).map (fun e => SkillRepo.cleanupEntry e keep) :=
  alFind_map (fun e => SkillRepo.cleanupEntry e keep) l id

theorem cleanupEntry_spec (e : SkillRepositoryEntry) (keep : Nat) :
    (SkillRepo.cleanupEntry e keep).versions.getLast? = e.versions.getLast? ∧
    (SkillRepo.cleanupEntry e keep).currentVersion = e.currentVersion := by
  unfold SkillRepo.cleanupEntry
  split
  · next hlen =>
    refine ⟨?_, rfl⟩
    show (if keep = 0 then e.versions
          else e.versions.drop (e.versions.length - keep)).getLast? =
      e.versions.getLast?
    split
    · rfl
    · next hk => exact getLast?_drop_of_lt _ _ (by omega)
  · exact ⟨rfl, rfl⟩

theorem getLast?_mem' {α : Type} {l : List α} {v : α}
    (h : l.getLast? = some v) : v ∈ l := by
  have hne : l ≠ [] := by
    rintro rfl
    simp at h
  rw [List.getLast?_eq_getLast_of_ne_nil hne] at h
  obtain rfl : v = l.getLast hne := by
    injection h with h'
    exact h'.symm
  exact List.getLast_mem hne

theorem updIter_length (id : String) (skill : GeneratedSkill) (ch : String)
    (now : Nat) :
    ∀ (N : Nat) (idx : RepositoryIndex) (e : SkillRepositoryEntry),
      alFind idx.skills id = some e →
      ∃ idx' e', updIter id skill ch now N idx = .ok idx' ∧
        alFind idx'.skills id = some e' ∧
        e'.versions.length = e.versions.length + N := by
  intro N
  induction N with
  | zero => intro idx e h; exact ⟨idx, e, rfl, h, by omega⟩
  | succ n ih =>
    intro idx e h
    obtain ⟨idx₁, hstep, hfind, _⟩ := updateSkill_step idx id e skill ch now h
    obtain ⟨idx', e', hiter, hfind', hlen'⟩ := ih idx₁ _ hfind
    refine ⟨idx', e', ?_, hfind', ?_⟩
    · simp only [updIter, hstep]
      exact hiter
    · simp only [List.length_append, List.length_cons, List.length_nil] at hlen'
      omega

theorem reach_lineage : ∀ {idx : RepositoryIndex}, RepoReach idx →
    ∀ id e, alFind idx.skills id = some e →
      e.versions ≠ [] ∧
      ∃ v, e.versions.getLast? = some v ∧ v.version = e.currentVersion := by
  intro idx h
  induction h with
  | init ver ua =>
    intro id e h
    rw [show (RepositoryIndex.mk ver ua []).skills = [] from rfl, alFind_nil] at h
    exact Option.noConfusion h
  | add bp skill now hr ih =>
    intro id e h
    by_cases hid : id = skill.id
    · subst hid
      rw [show (SkillRepo.add _ bp skill now).1.skills
            = alStore _ skill.id (SkillRepo.createEntry bp skill now) from rfl,
          alFind_store_self] at h
      injection h with h
      subst h
      exact ⟨by simp [SkillRepo.createEntry], _, rfl, rfl⟩
    · rw [show (SkillRepo.add _ bp skill now).1.skills
            = alStore _ skill.id (SkillRepo.createEntry bp skill now) from rfl,
          alFind_store_ne _ _ _ hid] at h
      exact ih id e h
  | update id' skill ch now hr heq ih =>
    intro id e h
    rcases h0 : alFind _ id' with _ | e0
    · rw [SkillRepo.updateSkill, h0] at heq
      exact Except.noConfusion heq
    · obtain ⟨idx₁, hstep, hfind, hother⟩ :=
        updateSkill_step _ id' e0 skill ch now h0
      rw [hstep] at heq
      injection heq with heq
      subst heq
      by_cases hid : id = id'
      · subst hid
        rw [hfind] at h
        injection h with h
        subst h
        refine ⟨by simp, _, List.getLast?_concat _, rfl⟩
      · rw [hother id hid] at h
        exact ih id e h
  | cleanup keep now hr ih =>
    intro id e h
    simp only [SkillRepo.cleanupOldVersions] at h
    rw [alFind_cleanup_map] at h
    rw [Option.map_eq_some'] at h
    obtain ⟨e0, h1, rfl⟩ := h
    obtain ⟨hne, v, hv, hver⟩ := ih id e0 h1
    obtain ⟨hlast, hcur⟩ := cleanupEntry_spec e0 keep
    refine ⟨?_, v, ?_, ?_⟩
    · intro hnil
      have hx := hlast
      rw [hnil, hv] at hx
      simp at hx
    · rw [hlast, hv]
    · rw [hcur]
      exact hver

/-- C8: version-lineage invariant — after any sequence of `add`,
`updateSkill` and `cleanupOldVersions` operations every stored entry has a
non-empty `versions` list whose last record's version equals
`currentVersion`; each `updateSkill` appends exactly one `SkillVersion`
record whose patch component strictly increments the previous
`currentVersion` (for a well-formed `major.minor.patch` version);
`versions.length` after `N` updates following an `add` equals `N + 1`; and
`cleanupOldVersions` never deletes the record matching `currentVersion`. -/
theorem version_lineage_invariant :
    (∀ idx, RepoReach idx → ∀ id e, alFind idx.skills id = some e →
      e.versions ≠ [] ∧
      ∃ v, e.versions.getLast? = some v ∧ v.version = e.currentVersion) ∧
    (∀ idx id e (skill : GeneratedSkill) ch now a b c,
      alFind idx.skills id = some e → e.currentVersion = mkVer a b c →
      ∃ idx' e', SkillRepo.updateSkill idx id skill ch now = .ok idx' ∧
        alFind idx'.skills id = some e' ∧
        e'.versions.length = e.versions.length + 1 ∧
        e'.versions.getLast? = some
          { version := mkVer a b (c + 1), timestamp := now, changelog := ch,
            author := skill.template.author,
            hash := SkillRepo.hashCode skill.code.typescript } ∧
        e'.currentVersion = mkVer a b (c + 1)) ∧
    (∀ (N : Nat) idx bp (skill0 skill : GeneratedSkill) ch now now',
      ∃ idx' e',
        updIter skill0.id skill ch now' N (SkillRepo.add idx bp skill0 now).1 =
          .ok idx' ∧
        alFind idx'.skills skill0.id = some e' ∧
        e'.versions.length = N + 1) ∧
    (∀ idx keep now id e, alFind idx.skills id = some e →
      (∃ v, e.versions.getLast? = some v ∧ v.version = e.currentVersion) →
      ∃ e', alFind (SkillRepo.cleanupOldVersions idx keep now).skills id = some e' ∧
        e'.currentVersion = e.currentVersion ∧
        ∃ v ∈ e'.versions, v.version = e.currentVersion) := by
  refine ⟨fun idx h => reach_lineage h, ?_, ?_, ?_⟩
  · intro idx id e skill ch now a b c h hv
    obtain ⟨idx', hstep, hfind, _⟩ := updateSkill_step idx id e skill ch now h
    refine ⟨idx', _, hstep, hfind, ?_, ?_, ?_⟩
    · simp
    · rw [show ({ e with
            versions := e.versions ++
              [{ version := SkillRepo.incrementVersion e.currentVersion,
                 timestamp := now, changelog := ch,
                 author := skill.template.author,
                 hash := SkillRepo.hashCode skill.code.typescript }],
            currentVersion := SkillRepo.incrementVersion e.currentVersion,
            template := skill.template,
            manifest := SkillRepo.templateToManifest skill.template,
            stats := { e.stats with updatedAt := now } :
          SkillRepositoryEntry }).versions = e.versions ++
            [{ version := SkillRepo.incrementVersion e.currentVersion,
               timestamp := now, changelog := ch,
               author := skill.template.author,
               hash := SkillRepo.hashCode skill.code.typescript }] from rfl,
        List.getLast?_concat, hv, incrementVersion_mkVer]
    · show SkillRepo.incrementVersion e.currentVersion = mkVer a b (c + 1)
      rw [hv, incrementVersion_mkVer]
  · intro N idx bp skill0 skill ch now now'
    have hadd : alFind (SkillRepo.add idx bp skill0 now).1.skills skill0.id =
        some (SkillRepo.createEntry bp skill0 now) := alFind_store_self _ _ _
    obtain ⟨idx', e', hiter, hfind, hlen⟩ :=
      updIter_length skill0.id skill ch now' N _ _ hadd
    refine ⟨idx', e', hiter, hfind, ?_⟩
    rw [hlen]
    have : (SkillRepo.createEntry bp skill0 now).versions.length = 1 := rfl
    omega
  · intro idx keep now id e h hok
    obtain ⟨v, hv, hver⟩ := hok
    refine ⟨SkillRepo.cleanupEntry e keep, ?_, (cleanupEntry_spec e keep).2, ?_⟩
    · simp only [SkillRepo.cleanupOldVersions]
      rw [alFind_cleanup_map, h]
      rfl
    · refine ⟨v, ?_, hver⟩
      apply getLast?_mem'
      rw [(cleanupEntry_spec e keep).1, hv]

theorem natToDigits_one : natToDigits 1 = ['1'] := by
  rw [natToDigits]
  rfl

theorem natToDigits_zero : natToDigits 0 = ['0'] := by
  rw [natToDigits]
  rfl

theorem mkVer_100 : mkVer 1 0 0 = "1.0.0" := by
  rw [mkVer, natToDigits_one, natToDigits_zero]
  decide

theorem mkVer_101 : mkVer 1 0 1 = "1.0.1" := by
  rw [mkVer, natToDigits_one, natToDigits_zero]
  decide

/-- Witness for C8 at concrete inputs: adding `skillDraft` to the empty
index yields a reachable state whose entry satisfies the invariant, and an
`updateSkill` on `idx0` (current version `1.0.0`) bumps it to `1.0.1`. -/
theorem version_lineage_invariant_witness :
    (∃ e, alFind (SkillRepo.add emptyIdx "./evolved_skills" skillDraft 0).1.skills
        "skill-1" = some e ∧ e.versions ≠ []) ∧
    (∃ idx' e', SkillRepo.updateSkill idx0 "skill-1" skillDraft "w" 3 = .ok idx' ∧
      alFind idx'.skills "skill-1" = some e' ∧ e'.currentVersion = "1.0.1") := by
  constructor
  · have hreach : RepoReach (SkillRepo.add emptyIdx "./evolved_skills" skillDraft 0).1 :=
      RepoReach.add _ _ _ (RepoReach.init "1.0.0" 0)
    have hfind : alFind (SkillRepo.add emptyIdx "./evolved_skills" skillDraft 0).1.skills
        "skill-1" = some (SkillRepo.createEntry "./evolved_skills" skillDraft 0) :=
      alFind_store_self _ _ _
    exact ⟨_, hfind, (version_lineage_invariant.1 _ hreach "skill-1" _ hfind).1⟩
  · have hcur : entry0.currentVersion = mkVer 1 0 0 := by
      rw [mkVer_100]
      rfl
    obtain ⟨idx', e', hstep, hfind, _, _, hver⟩ :=
      version_lineage_invariant.2.1 idx0 "skill-1" entry0 skillDraft "w" 3 1 0 0
        rfl hcur
    exact ⟨idx', e', hstep, hfind, by rw [hver, mkVer_101]⟩

/-! ## C6 — security gate verdict -/

theorem securityPassed_iff (risks : List SecurityRisk) (rev : Bool) :
    (!(risks.any fun r => decide (r.severity = .critical)) &&
      (!(risks.any fun r => decide (r.severity = .high)) || !rev)) = true ↔
    ((∀ r ∈ risks, r.severity ≠ Severity.critical) ∧
     ((∀ r ∈ risks, r.severity ≠ Severity.high) ∨ rev = false)) := by
  simp [Bool.and_eq_true, Bool.or_eq_true, Bool.not_eq_true', List.any_eq_false,
    decide_eq_true_eq]

theorem performSecurityReview_passed (cfg : EvolutionConfig)
    (rt : String → String → Bool) (skill : GeneratedSkill) :
    (performSecurityReview cfg rt skill).passed =
      (!((performSecurityReview cfg rt skill).risks.any
          fun r => decide (r.severity = .critical)) &&
       (!((performSecurityReview cfg rt skill).risks.any
           fun r => decide (r.severity = .high)) ||
        !cfg.security.requireReview)) := rfl

theorem evalM_here (r : List Char) : evalM ("eval(".data ++ r) = some r := rfl

theorem matchTxtAt_evalM_isSome (r : List Char) :
    (matchTxtAt evalM ("eval(".data ++ r)).isSome = true := by
  rw [matchTxtAt, evalM_here]
  rfl

theorem firstMatchTxt_isSome_append (f : List Char → Option (List Char))
    (l s : List Char) (h : (matchTxtAt f s).isSome = true) :
    (firstMatchTxt f (l ++ s)).isSome = true := by
  induction l with
  | nil =>
    rw [List.nil_append]
    cases s with
    | nil => simpa [firstMatchTxt] using h
    | cons c r =>
      rw [firstMatchTxt]
      rcases hm : matchTxtAt f (c :: r) with _ | t
      · rw [hm] at h
        simp at h
      · simp [Option.orElse, hm]
  | cons c l' ih =>
    rw [List.cons_append, firstMatchTxt]
    rcases hm : matchTxtAt f (c :: (l' ++ s)) with _ | t
    · simpa [Option.orElse, hm] using ih
    · simp [Option.orElse, hm]

/-- C6: the security gate passes iff no critical-severity risk was found and
(no high-severity risk exists or the review requirement is disabled); and any
source text containing a dynamic code evaluation call `eval(` always yields
at least one critical risk entry and a failed verdict, for every
configuration and permission set. -/
theorem security_gate_verdict (cfg : EvolutionConfig)
    (regexTest : String → String → Bool) (skill : GeneratedSkill) :
    ((performSecurityReview cfg regexTest skill).passed = true ↔
      ((∀ r ∈ (performSecurityReview cfg regexTest skill).risks,
          r.severity ≠ Severity.critical) ∧
       ((∀ r ∈ (performSecurityReview cfg regexTest skill).risks,
           r.severity ≠ Severity.high) ∨
        cfg.security.requireReview = false))) ∧
    ((∃ l r, skill.code.typescript.data = l ++ "eval(".data ++ r) →
      (∃ rk ∈ (performSecurityReview cfg regexTest skill).risks,
        rk.severity = Severity.critical) ∧
      (performSecurityReview cfg regexTest skill).passed = false) := by
  have hiff : (performSecurityReview cfg regexTest skill).passed = true ↔
      ((∀ r ∈ (performSecurityReview cfg regexTest skill).risks,
          r.severity ≠ Severity.critical) ∧
       ((∀ r ∈ (performSecurityReview cfg regexTest skill).risks,
           r.severity ≠ Severity.high) ∨
        cfg.security.requireReview = false)) := by
    rw [performSecurityReview_passed]
    exact securityPassed_iff _ _
  refine ⟨hiff, fun hinf => ?_⟩
  obtain ⟨l, r, hdata⟩ := hinf
  rw [List.append_assoc] at hdata
  have hsome : (firstMatchTxt evalM skill.code.typescript.data).isSome = true := by
    rw [hdata]
    exact firstMatchTxt_isSome_append _ _ _ (matchTxtAt_evalM_isSome r)
  obtain ⟨txt, htxt⟩ := Option.isSome_iff_exists.1 hsome
  have hdanger : dangerRiskOf skill.code.typescript.data
      ⟨evalM, .critical, "code-injection",
       "使用了eval函数，可能导致代码注入", "使用JSON.parse或其他安全的解析方法"⟩ =
      some { severity := .critical, category := "code-injection",
             description := "使用了eval函数，可能导致代码注入",
             location := some ("包含: " ++ String.mk txt),
             mitigation := some "使用JSON.parse或其他安全的解析方法" } := by
    simp only [dangerRiskOf]
    rw [htxt]
    rfl
  have hrk : ∃ rk ∈ (performSecurityReview cfg regexTest skill).risks,
      rk.severity = Severity.critical := by
    obtain ⟨rk, hrkmem, hrksev⟩ :
        ∃ rk ∈ dangerousPatterns.filterMap
            (dangerRiskOf skill.code.typescript.data),
          rk.severity = Severity.critical :=
      ⟨_, List.mem_filterMap.2
        ⟨⟨evalM, .critical, "code-injection",
          "使用了eval函数，可能导致代码注入", "使用JSON.parse或其他安全的解析方法"⟩,
         List.mem_cons_self _ _, hdanger⟩, rfl⟩
    exact ⟨rk, List.mem_append_left _ (List.mem_append_right _ hrkmem), hrksev⟩
  refine ⟨hrk, ?_⟩
  rw [Bool.eq_false_iff]
  intro hp
  obtain ⟨hcrit, _⟩ := hiff.1 hp
  obtain ⟨rk, hmem, hsev⟩ := hrk
  exact hcrit rk hmem hsev

/-- Witness for C6: the concrete source of `skillEval` contains `eval(` and
under the default configuration the review fails with a critical risk. -/
theorem security_gate_verdict_witness :
    (∃ rk ∈ (performSecurityReview cfgBase rtNone skillEval).risks,
      rk.severity = Severity.critical) ∧
    (performSecurityReview cfgBase rtNone skillEval).passed = false := by
  refine (security_gate_verdict cfgBase rtNone skillEval).2 ⟨"const r = ".data, "input)".data, ?_⟩
  decide

/-! ## C1 / C3 — deployment path -/

/-- C1 (code-bug evidence): in the happy path — auto-approve configured,
generation succeeds and validation passes on the first attempt —
`evolveSkill` returns `null`, the gap ends `failed`, no repository entry
exists afterwards and no `skill_deployed` event is logged (the history is
generation/validation events followed by a failure `generation_completed`):
`deploySkill` calls `repository.updateEntry` before `repository.add` has
created the entry, so `updateEntry` throws `Skill not found`. -/
theorem happy_path_deploy_crashes :
    (evolveSkill envOk stAuto "g1").result = .ok none ∧
    (evolveSkill envOk stAuto "g1").gapFinal.map (·.status) =
      some GapStatus.failed ∧
    (evolveSkill envOk stAuto "g1").state.repo.skills = [] ∧
    (evolveSkill envOk stAuto "g1").state.history.map (·.type) =
      [.generation_started, .validation_started, .validation_passed,
       .generation_completed] ∧
    ((evolveSkill envOk stAuto "g1").state.history.filter
      (fun ev => decide (ev.type = .skill_deployed))).length = 0 :=
  ⟨rfl, rfl, rfl, rfl, rfl⟩

/-- C3 (code-bug evidence): with validation passing, the
awaiting-approval branch persists the artifact and returns it as
`validated` but leaves the gap status at `generating` (never `resolved`),
and the immediate-deployment branch crashes in `deploySkill` (gap `failed`,
nothing persisted) — so neither branch makes the gap `resolved`. -/
theorem validation_passed_gap_never_resolved :
    ((evolveSkill envOk stManual "g1").result.map (fun o => o.map (·.status)) =
        .ok (some SkillStatus.validated) ∧
     (alFind (evolveSkill envOk stManual "g1").state.repo.skills
        "skill-1").isSome = true ∧
     (evolveSkill envOk stManual "g1").gapFinal.map (·.status) =
        some GapStatus.generating) ∧
    ((evolveSkill envOk stAuto "g1").gapFinal.map (·.status) =
        some GapStatus.failed ∧
     (evolveSkill envOk stAuto "g1").state.repo.skills = []) :=
  ⟨⟨rfl, rfl, rfl⟩, rfl, rfl⟩

/-! ## C2 — exception propagation at the engine boundary -/

/-- Counterexample to C2: `evolveSkill` called with a gap id that is not in
`pendingGaps` throws `Gap not found` to the caller (the check precedes the
try/catch boundary), instead of returning `null` as claimed for every
input. -/
theorem unknown_gap_throws :
    (evolveSkill envOk stAuto "gX").result = .error "Gap not found: gX" := rfl

theorem logEvent_getLast (st : EngineState) (ty : EvolutionEventType)
    (d : EventDetails) :
    (logEvent st ty d).history.getLast? =
      some ⟨st.nextEventId, st.now, ty, d⟩ := by
  simp only [logEvent]
  split
  · next hlen =>
    rw [getLast?_drop_of_lt _ _ (by omega)]
    exact List.getLast?_concat _
  · exact List.getLast?_concat _

/-- C2 (amended): for every call whose gap id is registered in
`pendingGaps` — including every `createSkillFromDescription` call — no
exception escapes to the caller; whenever the try-block body ends in an
exception the engine catches it at the boundary, marks the gap `failed`,
logs a failure `generation_completed` event carrying the error, and the
call returns `null`. Only `evolveSkill` on an unregistered gap id throws. -/
theorem exceptions_caught_at_boundary :
    (∀ env st gapId g, alFind st.pendingGaps gapId = some g →
      ∃ o, (evolveSkill env st gapId).result = .ok o) ∧
    (∀ env st desc fid,
      ∃ o, (createSkillFromDescription env st desc fid).result = .ok o) ∧
    (∀ env st gapId g e st' g' tr,
      alFind st.pendingGaps gapId = some g → st.isEvolving = false →
      tryBody env (startPipeline st gapId g).1 gapId
        (startPipeline st gapId g).2 = (.thrown e st' g', tr) →
      (evolveSkill env st gapId).result = .ok none ∧
      (evolveSkill env st gapId).gapFinal =
        some { g' with status := .failed } ∧
      ∃ ev, (evolveSkill env st gapId).state.history.getLast? = some ev ∧
        ev.type = .generation_completed ∧ ev.details.result = .failure ∧
        ev.details.error = some e) := by
  have part1 : ∀ env st gapId g, alFind st.pendingGaps gapId = some g →
      ∃ o, (evolveSkill env st gapId).result = .ok o := by
    intro env st gapId g h
    simp only [evolveSkill, h]
    split
    · exact ⟨_, rfl⟩
    · split
      · exact ⟨_, rfl⟩
      · exact ⟨_, rfl⟩
  refine ⟨part1, ?_, ?_⟩
  · intro env st desc fid
    exact part1 env _ fid _ (alFind_store_self _ _ _)
  · intro env st gapId g e st' g' tr h hb htb
    have hred : evolveSkill env st gapId =
        ⟨.ok none,
         { logEvent (storeGapSt st' gapId { g' with status := .failed })
             .generation_completed
             ⟨some { g' with status := .failed }, none, "generate", .failure,
              some e⟩ with isEvolving := false },
         some { g' with status := .failed }, tr⟩ := by
      simp only [evolveSkill, h]
      rw [if_neg (by simp [hb]), htb]
    rw [hred]
    exact ⟨rfl, rfl, _, logEvent_getLast _ _ _, rfl, rfl, rfl⟩

/-- Witness for C2's amended theorem: concrete calls with a registered gap
return a value (no escape), both for `evolveSkill` and for
`createSkillFromDescription`, and a concrete body exception (the deploy
crash) is converted to `null` plus a failure event. -/
theorem exceptions_caught_at_boundary_witness :
    (∃ o, (evolveSkill envOk stAuto "g1").result = .ok o) ∧
    (∃ o, (createSkillFromDescription envOk stAuto "parse csv" "g9").result =
      .ok o) ∧
    (evolveSkill envOk stAuto "g1").result = .ok none := by
  refine ⟨exceptions_caught_at_boundary.1 envOk stAuto "g1" gap0 rfl,
    exceptions_caught_at_boundary.2.1 envOk stAuto "parse csv" "g9", ?_⟩
  exact (exceptions_caught_at_boundary.2.2 envOk stAuto "g1" gap0 _ _ _ _
    rfl rfl rfl).1

/-! ## C4 — bounded repair -/

/-- C4: bounded repair — when every validation run completes with a `failed`
verdict (and generation and repair succeed), `evolveSkill` validates exactly
twice, repairs exactly once, marks the gap `failed` and returns `null` — no
further attempts; and `repairSkill` increments the artifact's generation
iteration count by exactly one. -/
theorem bounded_repair (env : EngineEnv) (st : EngineState) (gapId : String)
    (g : CapabilityGap)
    (h : alFind st.pendingGaps gapId = some g)
    (hb : st.isEvolving = false)
    (hgen : ∀ g', ∃ s, env.generateSkill g' = .ok s)
    (hvalok : ∀ s, ∃ t, env.validate s = .ok t)
    (hval : ∀ s t, env.validate s = .ok t → t.validation.status ≠ .passed)
    (hrep : ∀ s msg, ∃ c, env.repairCode s msg = .ok c) :
    (evolveSkill env st gapId).result = .ok none ∧
    (evolveSkill env st gapId).gapFinal.map (·.status) =
      some GapStatus.failed ∧
    (evolveSkill env st gapId).trace.countP
      (fun c => match c with | .validate _ => true | _ => false) = 2 ∧
    (evolveSkill env st gapId).trace.countP
      (fun c => match c with | .repair _ => true | _ => false) = 1 ∧
    (∀ s msg r, repairSkillM env s msg = .ok r →
      r.generation.iterations = s.generation.iterations + 1) := by
  obtain ⟨sk, hgen1⟩ := hgen (startPipeline st gapId g).2
  obtain ⟨v1, hv1⟩ := hvalok sk
  have hs1 := hval sk v1 hv1
  obtain ⟨c1, hc1⟩ := hrep v1 (collectValidationErrors v1)
  have hR : repairSkillM env v1 (collectValidationErrors v1) =
      .ok { v1 with
              code := { v1.code with typescript := c1 },
              generation := { v1.generation with
                                iterations := v1.generation.iterations + 1 } } := by
    simp only [repairSkillM, hc1]
  obtain ⟨v2, hv2⟩ := hvalok
    { v1 with
        code := { v1.code with typescript := c1 },
        generation := { v1.generation with
                          iterations := v1.generation.iterations + 1 } }
  have hs2 := hval _ v2 hv2
  have htb : tryBody env (startPipeline st gapId g).1 gapId
      (startPipeline st gapId g).2 =
      (.ret none
        (storeGapSt
          (logEvent
            (logEvent
              (logEvent (startPipeline st gapId g).1 .generation_started
                ⟨some (startPipeline st gapId g).2, none, "generate",
                 .success, none⟩)
              .validation_started ⟨none, some sk, "validate", .success, none⟩)
            .validation_failed
            ⟨none, some v2, "validate", .failure, some "修复后仍未通过验证"⟩)
          gapId { (startPipeline st gapId g).2 with status := .failed })
        { (startPipeline st gapId g).2 with status := .failed },
       [.generate true, .validate true, .repair true, .validate true]) := by
    simp only [tryBody, hgen1, hv1, hR, hv2, hs1, hs2, if_false]
  have hred : evolveSkill env st gapId =
      ⟨.ok none,
       { storeGapSt
          (logEvent
            (logEvent
              (logEvent (startPipeline st gapId g).1 .generation_started
                ⟨some (startPipeline st gapId g).2, none, "generate",
                 .success, none⟩)
              .validation_started ⟨none, some sk, "validate", .success, none⟩)
            .validation_failed
            ⟨none, some v2, "validate", .failure, some "修复后仍未通过验证"⟩)
          gapId { (startPipeline st gapId g).2 with status := .failed }
         with isEvolving := false },
       some { (startPipeline st gapId g).2 with status := .failed },
       [.generate true, .validate true, .repair true, .validate true]⟩ := by
    simp only [evolveSkill, h]
    rw [if_neg (by simp [hb]), htb]
  rw [hred]
  refine ⟨rfl, rfl, rfl, rfl, fun s msg r hr => ?_⟩
  rcases hc : env.repairCode s msg with _ | c
  · rw [repairSkillM, hc] at hr
    exact Except.noConfusion hr
  · rw [repairSkillM, hc] at hr
    injection hr with hr
    subst hr
    rfl

/-- Witness for C4 at the concrete always-failing environment. -/
theorem bounded_repair_witness :
    (evolveSkill envAlwaysFail stAuto "g1").result = .ok none ∧
    (evolveSkill envAlwaysFail stAuto "g1").trace.countP
      (fun c => match c with | .repair _ => true | _ => false) = 1 := by
  have h := bounded_repair envAlwaysFail stAuto "g1" gap0 rfl rfl
    (fun g' => ⟨skillDraft, rfl⟩) (fun s => ⟨_, rfl⟩)
    (fun s t ht => by
      injection ht with ht
      subst ht
      exact (by decide : ValidationStatus.failed ≠ ValidationStatus.passed))
    (fun s msg => ⟨"repaired-code", rfl⟩)
  exact ⟨h.1, h.2.2.2.1⟩

/-! ## C5 — drop on contention -/

/-- C5: while another pipeline run is in flight (`isEvolving = true`),
`evolveSkill` on a pending gap returns `null` immediately and the call is a
pure drop: the engine state — the gap's status, the pending set, the event
log and the repository — is completely unchanged and no stage runs. -/
theorem busy_drop (env : EngineEnv) (st : EngineState) (gapId : String)
    (g : CapabilityGap) (h : alFind st.pendingGaps gapId = some g)
    (hb : st.isEvolving = true) :
    evolveSkill env st gapId = ⟨.ok none, st, some g, []⟩ := by
  simp only [evolveSkill, h]
  rw [if_pos hb]

/-- Witness for C5: the concrete busy engine drops the call for gap `g1`,
whose status stays `identified`. -/
theorem busy_drop_witness :
    evolveSkill envOk stBusy "g1" = ⟨.ok none, stBusy, some gap0, []⟩ ∧
    gap0.status = .identified :=
  ⟨busy_drop envOk stBusy "g1" gap0 rfl rfl, rfl⟩

/-! ## C9 — the busy flag is always released -/

/-- C9: any `evolveSkill` call that starts with the engine idle terminates
with `isEvolving = false` again — on success, on validation failure, after a
caught internal exception, and even on the unknown-gap throw — so a
finished run can never wedge the engine as busy. -/
theorem busy_flag_released (env : EngineEnv) (st : EngineState)
    (gapId : String) (h : st.isEvolving = false) :
    (evolveSkill env st gapId).state.isEvolving = false := by
  rcases hlk : alFind st.pendingGaps gapId with _ | g
  · simp only [evolveSkill, hlk]
    exact h
  · simp only [evolveSkill, hlk]
    rw [if_neg (by simp [h])]
    rcases htb : tryBody env (startPipeline st gapId g).1 gapId
        (startPipeline st gapId g).2 with ⟨br, tr⟩
    cases br <;> rfl

/-- Witness for C9 at a concrete idle engine. -/
theorem busy_flag_released_witness :
    (evolveSkill envOk stAuto "g1").state.isEvolving = false :=
  busy_flag_released envOk stAuto "g1" rfl

end Clawdbot
